import Mathlib

/-!
Verification of the KoaX HTTP runtime core against its specification.

The definitions below are a shallow embedding of the TypeScript sources:
`src/application.ts` (KoaXApplication.handleRequest, executeMiddleware,
handleError, the hook runners), `src/response.ts` (KoaXResponse), the
context pool in `src/context.ts`, and the log transports in
`src/transports.ts`.  Stateful code is embedded as explicit state passing
over a state record; code that can throw returns an explicit error
component.  Hooks and middleware are user-supplied functions in the
source; they are embedded as small behaviour datatypes covering the ways
such a function can interact with the engine (return normally, throw,
call or not call its continuation, call it twice).
-/

namespace KoaX

/-- The body value stored in a KoaXResponse.  The dispatch claims only
depend on whether a body is present (JS null/undefined versus a value)
and, for the error path, on the error-object body built by handleError. -/
inductive BodyV where
  | errObj (msg : String)
  | raw (s : String)
deriving DecidableEq, Repr

/-- A user-thrown error as handleError inspects it: optional `status` and
`statusCode` fields, an `expose` flag and a message.  JS truthiness makes
a status of 0 fall through to the next alternative, hence Option Nat with
an explicit truthiness filter below. -/
structure KError where
  status : Option Nat
  statusCode : Option Nat
  expose : Bool
  message : String
deriving DecidableEq, Repr

/-- Errors that reach handleError: either a user error carried by a hook
or middleware, or the engine-raised duplicate-continuation error
(`new Error("next() called multiple times")`, which has no status or
expose field). -/
inductive DErr where
  | user (e : KError)
  | multipleNext
deriving DecidableEq, Repr

/-- JS truthiness on an optional numeric field: `e.status || fallback`
takes the fallback when the field is absent or 0. -/
def truthy : Option Nat → Option Nat
  | some 0 => none
  | some (n + 1) => some (n + 1)
  | none => none

/-- `err.status || err.statusCode || 500` from handleError. -/
def errStatusOf : DErr → Nat
  | .multipleNext => 500
  | .user e => ((truthy e.status).orElse fun _ => truthy e.statusCode).getD 500

/-- `err.expose ? err.message : "Internal Server Error"` from handleError. -/
def errMessageOf : DErr → String
  | .multipleNext => "Internal Server Error"
  | .user e => if e.expose then e.message else "Internal Server Error"

/-- Observable events of one request dispatch, in order of occurrence. -/
inductive Evt where
  | reqHook (i : Nat)
  | before (i : Nat)
  | after (i : Nat)
  | respHook (i : Nat)
  | errPhase
  | logError
  | errHookRun (i : Nat) (observedStatus : Nat)
  | errHookCaught
  | logInfo
  | send
deriving DecidableEq, Repr

/-- Dispatch state: the KoaXResponse fields (`_status`, `_explicitStatus`,
`_body`, `_message`), the raw ServerResponse fields it drives
(`statusCode`, `writableEnded`, `headersSent`, plus a counter of
`res.end` calls), the middleware index shared across one chain, and the
event trace. -/
structure St where
  status : Nat := 404
  explicitStatus : Bool := false
  body : Option BodyV := none
  message : Option String := none
  resStatusCode : Nat := 200
  writableEnded : Bool := false
  headersSent : Bool := false
  endCount : Nat := 0
  idx : Int := -1
  trace : List Evt := []
deriving DecidableEq, Repr

/-- The state of a freshly constructed request/response pair. -/
def St.init : St := {}

/-- Append one event to the trace. -/
def emit (s : St) (e : Evt) : St :=
  { s with trace := s.trace ++ [e] }

/-- KoaXResponse status setter: records the status, marks it explicit and
mirrors it onto the raw response. -/
def setStatus (s : St) (code : Nat) : St :=
  { s with status := code, explicitStatus := true, resStatusCode := code }

/-- KoaXResponse body setter: stores the body and, when no status has
been explicitly set and the body is non-null, auto-sets status 200. -/
def setBody (s : St) (v : Option BodyV) : St :=
  let s := { s with body := v }
  if s.explicitStatus = false ∧ v.isSome then setStatus s 200 else s

/-- KoaXResponse.send: returns without effect when the raw response has
already ended or sent headers; otherwise ends the raw response exactly
once (every body-type branch of the source performs one `res.end`). -/
def send (s : St) : St :=
  if s.writableEnded || s.headersSent then s
  else
    { s with writableEnded := true, headersSent := true,
             endCount := s.endCount + 1, trace := s.trace ++ [.send] }

/-- KoaXResponse.reset: body/message cleared, status back to 404,
explicit-status flag cleared. -/
def resetResp (s : St) : St :=
  { s with body := none, status := 404, message := none, explicitStatus := false }

/-- Behaviour of one request or response hook: return normally or throw. -/
inductive HB where
  | ok
  | throwE (e : KError)
deriving DecidableEq, Repr

/-- Behaviour of one error hook: return normally or throw. -/
inductive EHB where
  | ok
  | throwE (e : KError)
deriving DecidableEq, Repr

/-- Behaviour of one middleware function with respect to its continuation:
do not call it, call it once, call it once and then throw, throw before
calling it, or call it twice. -/
inductive MWB where
  | stop
  | next
  | nextThenThrow (e : KError)
  | throwE (e : KError)
  | nextTwice
deriving DecidableEq, Repr

/-- The hook loops of executeRequestHooks / executeResponseHooks: run each
hook in registration order; a throwing hook aborts the loop and the error
propagates. -/
def runHooks (mk : Nat → Evt) : List HB → Nat → St → St × Option DErr
  | [], _, s => (s, none)
  | .ok :: rest, i, s => runHooks mk rest (i + 1) (emit s (mk i))
  | .throwE e :: _, i, s => (emit s (mk i), some (.user e))

/-- The iterative middleware dispatch of executeMiddleware.  `i` is the
absolute step index, `rest` the middleware suffix from that index.  The
guard `i <= index` raises the duplicate-continuation error before
anything else; otherwise `index` is advanced to `i` and the step runs,
its continuation dispatching the next index. -/
def go : List MWB → Nat → St → St × Option DErr
  | rest, i, s =>
    if (i : Int) ≤ s.idx then (s, some .multipleNext)
    else
      let s := { s with idx := (i : Int) }
      match rest with
      | [] => (s, none)
      | b :: rest' =>
        match b with
        | .stop => (emit s (.before i), none)
        | .throwE e => (emit s (.before i), some (.user e))
        | .next =>
          match go rest' (i + 1) (emit s (.before i)) with
          | (s', none) => (emit s' (.after i), none)
          | (s', some e) => (s', some e)
        | .nextThenThrow e =>
          match go rest' (i + 1) (emit s (.before i)) with
          | (s', none) => (s', some (.user e))
          | (s', some e') => (s', some e')
        | .nextTwice =>
          match go rest' (i + 1) (emit s (.before i)) with
          | (s', none) => go rest' (i + 1) s'
          | (s', some e) => (s', some e)

/-- executeMiddleware: early return on an empty chain, otherwise a fresh
shared index initialised to -1 and dispatch of step 0. -/
def executeMiddleware (mws : List MWB) (s : St) : St × Option DErr :=
  if mws.isEmpty then (s, none)
  else go mws 0 { s with idx := -1 }

/-- The error-hook loop inside handleError: the whole loop sits in a
single try/catch, so the first throwing hook is caught and logged
(`errHookCaught`) and the remaining hooks never run.  Each hook-run event
records the context status the hook observes at that moment. -/
def runErrHooks : List EHB → Nat → St → St
  | [], _, s => s
  | .ok :: rest, i, s => runErrHooks rest (i + 1) (emit s (.errHookRun i s.status))
  | .throwE _ :: _, i, s => emit (emit s (.errHookRun i s.status)) .errHookCaught

/-- handleError: classify status and message, log the error, run the
error hooks (single guard), then set the context status and body, then
send unless the raw response has already ended.  The trailing
`emit("error")` has no effect on the response and is not modelled.  This
is the restriction of handleErrorT below to a transport honouring the
write-never-throws contract (both logger calls return normally); see
handleErrorT for the general model in which they may throw. -/
def handleError (errHooks : List EHB) (e : DErr) (s : St) : St :=
  let status := errStatusOf e
  let message := errMessageOf e
  let s := emit s .errPhase
  let s := emit s .logError
  let s := runErrHooks errHooks 0 s
  let s := setStatus s status
  let s := setBody s (some (.errObj message))
  if s.writableEnded then s else send s

/-- handleRequest: request hooks, middleware, response hooks, timing log,
respond; any error from the three phases transfers control to
handleError.  This is the restriction of handleRequestT below to a
transport honouring the write-never-throws contract; handleRequestT
models the general case where the unguarded transport write behind the
logger calls may throw. -/
def handleRequest (reqHooks : List HB) (mws : List MWB) (respHooks : List HB)
    (errHooks : List EHB) (s : St) : St :=
  match runHooks .reqHook reqHooks 0 s with
  | (s, some e) => handleError errHooks e s
  | (s, none) =>
    match executeMiddleware mws s with
    | (s, some e) => handleError errHooks e s
    | (s, none) =>
      match runHooks .respHook respHooks 0 s with
      | (s, some e) => handleError errHooks e s
      | (s, none) => send (emit s .logInfo)

/-- Behaviour of the logger at the three log call sites of the dispatch
path.  In the source, Logger.log forwards to `this.transport.write(entry)`
with no guard (logger.ts line 227), and the transport is pluggable
(`options.logger.transport`); the repository's own FilterTransport.write
propagates predicate exceptions, so each of these calls can throw.  A
field is true when the transport write throws on that call's entry:
`errLogThrows` for `ctx.log.error(err, ...)` at the top of handleError,
`hookCatchLogThrows` for `this.logger.error(hookErr, ...)` inside the
hook-loop catch, and `timingLogThrows` for `ctx.log.info(...)` in the
timing block of handleRequest.  A transport honouring the spec's
write-never-throws contract is the all-false value. -/
structure LogB where
  errLogThrows : Bool
  hookCatchLogThrows : Bool
  timingLogThrows : Bool
deriving DecidableEq, Repr

/-- The JS Error escaping an unguarded transport write: a plain Error
with no status, statusCode or expose field. -/
def logThrowErr : KError :=
  { status := none, statusCode := none, expose := false,
    message := "transport write threw" }

/-- The error-hook loop of handleError in the general model: same single
try/catch as runErrHooks, but the `this.logger.error(hookErr, ...)` call
inside the catch goes through the unguarded transport write and may
itself throw, in which case that exception escapes the loop (second
component some). -/
def runErrHooksT (lgb : LogB) : List EHB → Nat → St → St × Option DErr
  | [], _, s => (s, none)
  | .ok :: rest, i, s =>
    runErrHooksT lgb rest (i + 1) (emit s (.errHookRun i s.status))
  | .throwE _ :: _, i, s =>
    let s := emit s (.errHookRun i s.status)
    if lgb.hookCatchLogThrows then (s, some (.user logThrowErr))
    else (emit s .errHookCaught, none)

/-- KoaXApplication.handleError in the general model: identical to
handleError except that the two logger calls go through the unguarded
transport write and may throw.  `ctx.log.error(err, ...)` runs before the
hooks and before the status/body assignment, so when it throws the
exception escapes handleError (second component some) with no response
sent; likewise for a throw escaping the hook-loop catch. -/
def handleErrorT (lgb : LogB) (errHooks : List EHB) (e : DErr) (s : St) :
    St × Option DErr :=
  let status := errStatusOf e
  let message := errMessageOf e
  let s := emit s .errPhase
  if lgb.errLogThrows then (s, some (.user logThrowErr))
  else
    let s := emit s .logError
    match runErrHooksT lgb errHooks 0 s with
    | (s, some esc) => (s, some esc)
    | (s, none) =>
      let s := setStatus s status
      let s := setBody s (some (.errObj message))
      (if s.writableEnded then s else send s, none)

/-- KoaXApplication.handleRequest in the general model: the timing log
`ctx.log.info(...)` sits inside the try block, so when its transport
write throws the catch transfers to handleError like any phase error; an
error escaping handleError itself leaves handleRequest as a rejection
(second component some) with the finally only registering the release
listener. -/
def handleRequestT (lgb : LogB) (reqHooks : List HB) (mws : List MWB)
    (respHooks : List HB) (errHooks : List EHB) (s : St) : St × Option DErr :=
  match runHooks .reqHook reqHooks 0 s with
  | (s, some e) => handleErrorT lgb errHooks e s
  | (s, none) =>
    match executeMiddleware mws s with
    | (s, some e) => handleErrorT lgb errHooks e s
    | (s, none) =>
      match runHooks .respHook respHooks 0 s with
      | (s, some e) => handleErrorT lgb errHooks e s
      | (s, none) =>
        if lgb.timingLogThrows then
          handleErrorT lgb errHooks (.user logThrowErr) s
        else (send (emit s .logInfo), none)

/-! ## Context pool (`src/context.ts`) -/

/-- A request-bound child logger as described by the spec: shares the root
transport configuration and carries the request identifier as a fixed
binding. -/
structure BoundLogger where
  loggerName : String
  reqBinding : String
deriving DecidableEq, Repr

/-- A pooled Context.  The raw handles and the owning application are
modelled by numeric identities.  JS object references are modelled by
indices into the pool store, so that mutating a released Context is
visible to later acquires of the same object. -/
structure Ctx where
  appId : Nat
  rawReq : Nat
  rawRes : Nat
  state : List (String × String)
  requestId : Option String
  startTime : Option Nat
  log : Option BoundLogger
deriving DecidableEq, Repr

/-- An uninitialised Context record, before its constructor body runs. -/
def Ctx.blank : Ctx :=
  { appId := 0, rawReq := 0, rawRes := 0, state := [],
    requestId := none, startTime := none, log := none }

/-- Modelled from the spec: the Context source file carrying the identity
fields (request identifier, request-start timestamp, bound Logger) is not
under src/ — only its callers are (application.ts reads ctx.startTime and
ctx.log; index.ts re-exports generateRequestId used for the identifier),
and the version of context.ts present under src/ predates them.
Following spec section 3, reset reinitialises the owning-application
reference and the raw handles, clears the state map, assigns a
time-derived request identifier, records the request-start timestamp, and
binds a child logger carrying the request identifier.  The identifier
follows generateRequestId from logger.ts: time concatenated with a
counter. -/
def Ctx.reset (c : Ctx) (app req res now counter : Nat) (nm : String) : Ctx :=
  { c with appId := app, rawReq := req, rawRes := res,
           state := [],
           requestId := some (toString now ++ "-" ++ toString counter),
           startTime := some now,
           log := some { loggerName := nm,
                         reqBinding := toString now ++ "-" ++ toString counter } }

/-- The pool state: `store` holds every Context ever constructed, indexed
by identity; `free` is the free list (head = top, matching pop/push on
the end of the source array); `inUseIds` models the per-Context `_inUse`
flags; `created` is the lifetime construction counter. -/
structure PoolSt where
  store : List Ctx
  free : List Nat
  inUseIds : List Nat
  maxSize : Nat
  created : Nat
deriving DecidableEq, Repr

/-- An empty pool as constructed at application startup. -/
def PoolSt.empty (maxSize : Nat) : PoolSt :=
  { store := [], free := [], inUseIds := [], maxSize := maxSize, created := 0 }

/-- ContextPool.acquire: pop a free Context and reset it in place, or on
pool-miss construct a new one (the Context constructor itself calls
reset) and bump the creation counter; either way mark it in use. -/
def PoolSt.acquire (p : PoolSt) (app req res now counter : Nat) (nm : String) :
    Nat × PoolSt :=
  match p.free with
  | [] =>
    let id := p.store.length
    let c := Ctx.blank.reset app req res now counter nm
    (id, { p with store := p.store ++ [c], created := p.created + 1,
                  inUseIds := id :: p.inUseIds })
  | id :: rest =>
    let c := (p.store.getD id Ctx.blank).reset app req res now counter nm
    (id, { p with store := p.store.set id c, free := rest,
                  inUseIds := id :: p.inUseIds })

/-- ContextPool.release: a Context whose in-use flag is clear is ignored
(double-release guard); otherwise the flag is cleared and, only when the
free list is below the configured maximum, the state map is cleared and
the Context is pushed; at capacity it is simply dropped. -/
def PoolSt.release (p : PoolSt) (id : Nat) : PoolSt :=
  if id ∈ p.inUseIds then
    let p := { p with inUseIds := p.inUseIds.filter (fun j => j != id) }
    if p.free.length < p.maxSize then
      { p with store := p.store.set id
                 { (p.store.getD id Ctx.blank) with state := [] },
               free := id :: p.free }
    else p
  else p

/-- ContextPool.getStats. -/
def PoolSt.getStats (p : PoolSt) : Nat × Nat × Nat :=
  (p.free.length, p.created, p.maxSize)

/-- One step of an arbitrary acquire/release interleaving. -/
inductive PoolOp where
  | acquireOp (app req res now counter : Nat)
  | releaseOp (id : Nat)
deriving DecidableEq, Repr

/-- Apply one pool operation. -/
def PoolSt.step (p : PoolSt) : PoolOp → PoolSt
  | .acquireOp a r e n c => (p.acquire a r e n c "koax").2
  | .releaseOp id => p.release id

/-- Run a sequence of pool operations from a fresh pool. -/
def PoolSt.run (maxSize : Nat) (ops : List PoolOp) : PoolSt :=
  ops.foldl PoolSt.step (PoolSt.empty maxSize)

/-! ## Log transports (`src/transports.ts`) -/

/-- A structured log entry as far as the transport claims need it. -/
structure EntryT where
  level : Nat
  entryMsg : String
deriving DecidableEq, Repr

/-- Outcome of evaluating the user predicate of a FilterTransport on one
entry: accept, reject, or throw. -/
inductive PredB where
  | accept
  | reject
  | throwsB
deriving DecidableEq, Repr

/-- FilterTransport.write: the predicate is evaluated with no surrounding
try/catch.  True forwards the entry to the wrapped transport, false does
nothing, and a predicate exception propagates to the caller of write
(second component some).  The wrapped transport is modelled by the list
of entries it has received. -/
def filterWrite (pred : EntryT → PredB) (inner : List EntryT) (e : EntryT) :
    List EntryT × Option String :=
  match pred e with
  | .accept => (inner ++ [e], none)
  | .reject => (inner, none)
  | .throwsB => (inner, some "predicate threw")

/-- Outcome of one child-transport operation: return or throw. -/
inductive OpB where
  | okB
  | throwsB
deriving DecidableEq, Repr

/-- One child of a MultiTransport: the behaviour of its write, its
optional flush and optional close, plus its observable state (entries
received, whether its flush/close ran). -/
structure Child where
  writeB : OpB
  flushB : Option OpB
  closeB : Option OpB
  received : List EntryT
  flushed : Bool
  closed : Bool
deriving DecidableEq, Repr

/-- One iteration of the MultiTransport.write loop: the child write runs
inside its own try/catch; a throwing child is logged (the counter) and
iteration continues. -/
def writeOne (e : EntryT) (acc : List Child × Nat) (c : Child) : List Child × Nat :=
  match c.writeB with
  | .okB => (acc.1 ++ [{ c with received := c.received ++ [e] }], acc.2)
  | .throwsB => (acc.1 ++ [c], acc.2 + 1)

/-- MultiTransport.write: each child write runs inside its own try/catch;
a throwing child is logged (second component counts the individually
logged failures) and iteration continues with the remaining children.
Never throws to the caller. -/
def multiWrite (cs : List Child) (e : EntryT) : List Child × Nat :=
  cs.foldl (writeOne e) ([], 0)

/-- MultiTransport.flush: the source filters the children that define
flush and invokes each inside the map building the Promise.all argument;
a child flush that throws synchronously therefore aborts the iteration —
the remaining children are not flushed — and the exception propagates to
the caller (second component some). -/
def multiFlush : List Child → List Child × Option String
  | [] => ([], none)
  | c :: rest =>
    match c.flushB with
    | none =>
      let r := multiFlush rest
      (c :: r.1, r.2)
    | some .okB =>
      let r := multiFlush rest
      ({ c with flushed := true } :: r.1, r.2)
    | some .throwsB => (c :: rest, some "flush threw")

/-- MultiTransport.close: same shape as flush. -/
def multiClose : List Child → List Child × Option String
  | [] => ([], none)
  | c :: rest =>
    match c.closeB with
    | none =>
      let r := multiClose rest
      (c :: r.1, r.2)
    | some .okB =>
      let r := multiClose rest
      ({ c with closed := true } :: r.1, r.2)
    | some .throwsB => (c :: rest, some "close threw")

/-! ## Helper predicates and expected-trace functions used by the
theorem statements. -/

/-- Recognise the error-phase entry event. -/
def isErrPhase : Evt → Bool
  | .errPhase => true
  | _ => false

/-- Recognise an error-hook-run event. -/
def isErrHookRun : Evt → Bool
  | .errHookRun _ _ => true
  | _ => false

/-- The events the error-hook loop of handleError produces when every
hook observes context status `st`: hooks run in order until the first
throwing hook, which is followed by the caught-and-logged event; hooks
after it produce nothing. -/
def expectedErrHookEvts : List EHB → Nat → Nat → List Evt
  | [], _, _ => []
  | .ok :: rest, i, st => .errHookRun i st :: expectedErrHookEvts rest (i + 1) st
  | .throwE _ :: _, i, st => [.errHookRun i st, .errHookCaught]

/-- What MultiTransport.write does to one child: deliver the entry when
its write returns, leave it untouched when its write throws. -/
def writeMark (e : EntryT) (c : Child) : Child :=
  match c.writeB with
  | .okB => { c with received := c.received ++ [e] }
  | .throwsB => c

/-- What a completed MultiTransport.flush does to one child: mark it
flushed when it defines a non-throwing flush. -/
def flushMark (c : Child) : Child :=
  match c.flushB with
  | some .okB => { c with flushed := true }
  | _ => c

/-- What a completed MultiTransport.close does to one child. -/
def closeMark (c : Child) : Child :=
  match c.closeB with
  | some .okB => { c with closed := true }
  | _ => c

/-! ## Lemmas -/

theorem runErrHooks_eq (hooks : List EHB) : ∀ (i : Nat) (s : St),
    runErrHooks hooks i s
      = { s with trace := s.trace ++ expectedErrHookEvts hooks i s.status } := by
  induction hooks with
  | nil => intro i s; simp [runErrHooks, expectedErrHookEvts]
  | cons b rest ih =>
    intro i s
    cases b with
    | ok =>
      simp only [runErrHooks, expectedErrHookEvts, ih, emit]
      simp
    | throwE e =>
      simp [runErrHooks, expectedErrHookEvts, emit]

theorem handleError_char (hooks : List EHB) (d : DErr) (s : St)
    (hwe : s.writableEnded = false) (hhs : s.headersSent = false) :
    handleError hooks d s = { s with
      status := errStatusOf d,
      explicitStatus := true,
      body := some (BodyV.errObj (errMessageOf d)),
      resStatusCode := errStatusOf d,
      writableEnded := true,
      headersSent := true,
      endCount := s.endCount + 1,
      trace := s.trace ++ Evt.errPhase :: Evt.logError ::
        (expectedErrHookEvts hooks 0 s.status ++ [Evt.send]) } := by
  simp only [handleError, emit, runErrHooks_eq, setStatus, setBody]
  simp [send, hwe, hhs]

theorem go_nil (i : Nat) (s : St) :
    go [] i s = if (i : Int) ≤ s.idx then (s, some .multipleNext)
                else ({ s with idx := (i : Int) }, none) := rfl

theorem go_cons (b : MWB) (rest : List MWB) (i : Nat) (s : St) :
    go (b :: rest) i s =
      if (i : Int) ≤ s.idx then (s, some .multipleNext)
      else
        let s := { s with idx := (i : Int) }
        match b with
        | .stop => (emit s (.before i), none)
        | .throwE e => (emit s (.before i), some (.user e))
        | .next =>
          match go rest (i + 1) (emit s (.before i)) with
          | (s', none) => (emit s' (.after i), none)
          | (s', some e) => (s', some e)
        | .nextThenThrow e =>
          match go rest (i + 1) (emit s (.before i)) with
          | (s', none) => (s', some (.user e))
          | (s', some e') => (s', some e')
        | .nextTwice =>
          match go rest (i + 1) (emit s (.before i)) with
          | (s', none) => go rest (i + 1) s'
          | (s', some e) => (s', some e) := rfl

theorem runHooks_char (mk : Nat → Evt) (hbs : List HB) : ∀ (i : Nat) (s : St),
    ∃ tr : List Evt,
      (runHooks mk hbs i s).1 = { s with trace := s.trace ++ tr } ∧
      ∀ ev ∈ tr, ∃ j, ev = mk j := by
  induction hbs with
  | nil => intro i s; exact ⟨[], by simp [runHooks], by simp⟩
  | cons b rest ih =>
    intro i s
    cases b with
    | ok =>
      obtain ⟨tr, h1, h2⟩ := ih (i + 1) (emit s (mk i))
      simp only [emit] at h1
      refine ⟨mk i :: tr, ?_, ?_⟩
      · show (runHooks mk rest (i + 1) (emit s (mk i))).1 = _
        simp only [emit]
        rw [h1]
        simp
      · intro ev hev
        rcases List.mem_cons.mp hev with h | h
        · exact ⟨i, h⟩
        · exact h2 ev h
    | throwE e =>
      exact ⟨[mk i], by simp [runHooks, emit], by simp⟩

theorem go_char (mws : List MWB) : ∀ (i : Nat) (s : St),
    ∃ (tr : List Evt) (i2 : Int),
      (go mws i s).1 = { s with trace := s.trace ++ tr, idx := i2 } ∧
      ∀ ev ∈ tr, (∃ j, ev = Evt.before j) ∨ (∃ j, ev = Evt.after j) := by
  induction mws with
  | nil =>
    intro i s
    by_cases h : (i : Int) ≤ s.idx
    · exact ⟨[], s.idx, by rw [go_nil, if_pos h]; simp, by simp⟩
    · exact ⟨[], (i : Int), by rw [go_nil, if_neg h]; simp, by simp⟩
  | cons b rest ih =>
    intro i s
    by_cases h : (i : Int) ≤ s.idx
    · exact ⟨[], s.idx, by rw [go_cons, if_pos h]; simp, by simp⟩
    cases b with
    | stop =>
      exact ⟨[Evt.before i], (i : Int),
        by rw [go_cons, if_neg h]; simp [emit], by simp⟩
    | throwE e =>
      exact ⟨[Evt.before i], (i : Int),
        by rw [go_cons, if_neg h]; simp [emit], by simp⟩
    | next =>
      rcases hg : go rest (i + 1) (emit { s with idx := (i : Int) } (Evt.before i))
        with ⟨s', e'⟩
      obtain ⟨tr, i2, h1, h2⟩ :=
        ih (i + 1) (emit { s with idx := (i : Int) } (Evt.before i))
      rw [hg] at h1
      dsimp only at h1
      cases e' with
      | none =>
        refine ⟨Evt.before i :: (tr ++ [Evt.after i]), i2, ?_, ?_⟩
        · rw [go_cons, if_neg h]
          dsimp only
          rw [hg]
          dsimp only
          rw [show (emit s' (Evt.after i)) =
                { s' with trace := s'.trace ++ [Evt.after i] } from rfl, h1]
          simp [emit]
        · intro ev hev
          simp only [List.mem_cons, List.mem_append, List.mem_singleton] at hev
          rcases hev with h | h | h | h
          · exact Or.inl ⟨i, h⟩
          · exact h2 ev h
          · exact Or.inr ⟨i, h⟩
          · exact absurd h (List.not_mem_nil ev)
      | some e =>
        refine ⟨Evt.before i :: tr, i2, ?_, ?_⟩
        · rw [go_cons, if_neg h]
          dsimp only
          rw [hg]
          dsimp only
          rw [h1]
          simp [emit]
        · intro ev hev
          rcases List.mem_cons.mp hev with h | h
          · exact Or.inl ⟨i, h⟩
          · exact h2 ev h
    | nextThenThrow e0 =>
      rcases hg : go rest (i + 1) (emit { s with idx := (i : Int) } (Evt.before i))
        with ⟨s', e'⟩
      obtain ⟨tr, i2, h1, h2⟩ :=
        ih (i + 1) (emit { s with idx := (i : Int) } (Evt.before i))
      rw [hg] at h1
      dsimp only at h1
      refine ⟨Evt.before i :: tr, i2, ?_, ?_⟩
      · cases e' with
        | none =>
          rw [go_cons, if_neg h]
          dsimp only
          rw [hg]
          dsimp only
          rw [h1]
          simp [emit]
        | some e =>
          rw [go_cons, if_neg h]
          dsimp only
          rw [hg]
          dsimp only
          rw [h1]
          simp [emit]
      · intro ev hev
        rcases List.mem_cons.mp hev with h | h
        · exact Or.inl ⟨i, h⟩
        · exact h2 ev h
    | nextTwice =>
      rcases hg : go rest (i + 1) (emit { s with idx := (i : Int) } (Evt.before i))
        with ⟨s', e'⟩
      obtain ⟨tr, i2, h1, h2⟩ :=
        ih (i + 1) (emit { s with idx := (i : Int) } (Evt.before i))
      rw [hg] at h1
      dsimp only at h1
      cases e' with
      | none =>
        obtain ⟨tr2, i3, h3, h4⟩ := ih (i + 1) s'
        refine ⟨Evt.before i :: (tr ++ tr2), i3, ?_, ?_⟩
        · rw [go_cons, if_neg h]
          dsimp only
          rw [hg]
          dsimp only
          rw [h3, h1]
          simp [emit]
        · intro ev hev
          simp only [List.mem_cons, List.mem_append] at hev
          rcases hev with h | h | h
          · exact Or.inl ⟨i, h⟩
          · exact h2 ev h
          · exact h4 ev h
      | some e =>
        refine ⟨Evt.before i :: tr, i2, ?_, ?_⟩
        · rw [go_cons, if_neg h]
          dsimp only
          rw [hg]
          dsimp only
          rw [h1]
          simp [emit]
        · intro ev hev
          rcases List.mem_cons.mp hev with h | h
          · exact Or.inl ⟨i, h⟩
          · exact h2 ev h

theorem executeMiddleware_char (mws : List MWB) (s : St) :
    ∃ (tr : List Evt) (i2 : Int),
      (executeMiddleware mws s).1 = { s with trace := s.trace ++ tr, idx := i2 } ∧
      ∀ ev ∈ tr, (∃ j, ev = Evt.before j) ∨ (∃ j, ev = Evt.after j) := by
  by_cases h : mws.isEmpty
  · exact ⟨[], s.idx, by simp [executeMiddleware, h], by simp⟩
  · obtain ⟨tr, i2, h1, h2⟩ := go_char mws 0 { s with idx := -1 }
    exact ⟨tr, i2, by simp [executeMiddleware, h, h1], h2⟩

/-- With a transport honouring the write-never-throws contract, every
run of handleRequest — whatever the request hooks, the middleware chain,
the response hooks and the error hooks do, including throwing anywhere
and throwing inside the error phase's own hooks — performs `res.end` on
the raw response exactly once. -/
theorem handleRequest_endCount_one (rq : List HB) (mws : List MWB)
    (rs : List HB) (eh : List EHB) :
    (handleRequest rq mws rs eh St.init).endCount = 1 := by
  unfold handleRequest
  rcases h1 : runHooks Evt.reqHook rq 0 St.init with ⟨s1, e1⟩
  obtain ⟨tr1, hs1, -⟩ := runHooks_char Evt.reqHook rq 0 St.init
  rw [h1] at hs1
  dsimp only at hs1
  have hf1 : s1.writableEnded = false ∧ s1.headersSent = false ∧ s1.endCount = 0 := by
    rw [hs1]; exact ⟨rfl, rfl, rfl⟩
  cases e1 with
  | some e =>
    dsimp only
    rw [handleError_char eh e s1 hf1.1 hf1.2.1, hf1.2.2]
  | none =>
    dsimp only
    rcases h2 : executeMiddleware mws s1 with ⟨s2, e2⟩
    obtain ⟨tr2, i2, hs2, -⟩ := executeMiddleware_char mws s1
    rw [h2] at hs2
    dsimp only at hs2
    have hf2 : s2.writableEnded = false ∧ s2.headersSent = false ∧ s2.endCount = 0 := by
      rw [hs2]; exact ⟨hf1.1, hf1.2.1, hf1.2.2⟩
    cases e2 with
    | some e =>
      dsimp only
      rw [handleError_char eh e s2 hf2.1 hf2.2.1, hf2.2.2]
    | none =>
      dsimp only
      rcases h3 : runHooks Evt.respHook rs 0 s2 with ⟨s3, e3⟩
      obtain ⟨tr3, hs3, -⟩ := runHooks_char Evt.respHook rs 0 s2
      rw [h3] at hs3
      dsimp only at hs3
      have hf3 : s3.writableEnded = false ∧ s3.headersSent = false ∧ s3.endCount = 0 := by
        rw [hs3]; exact ⟨hf2.1, hf2.2.1, hf2.2.2⟩
      cases e3 with
      | some e =>
        dsimp only
        rw [handleError_char eh e s3 hf3.1 hf3.2.1, hf3.2.2]
      | none =>
        dsimp only
        simp [send, emit, hf3.1, hf3.2.1, hf3.2.2]

theorem runErrHooksT_noThrow_eq (hooks : List EHB) : ∀ (i : Nat) (s : St),
    runErrHooksT ⟨false, false, false⟩ hooks i s = (runErrHooks hooks i s, none) := by
  induction hooks with
  | nil => intro i s; rfl
  | cons b rest ih =>
    intro i s
    cases b with
    | ok => exact ih (i + 1) (emit s (.errHookRun i s.status))
    | throwE e => rfl

theorem handleErrorT_noThrow_eq (eh : List EHB) (e : DErr) (s : St) :
    handleErrorT ⟨false, false, false⟩ eh e s = (handleError eh e s, none) := by
  simp only [handleErrorT, handleError]
  rw [runErrHooksT_noThrow_eq]
  simp

theorem handleRequestT_noThrow_eq (rq : List HB) (mws : List MWB) (rs : List HB)
    (eh : List EHB) (s : St) :
    handleRequestT ⟨false, false, false⟩ rq mws rs eh s
      = (handleRequest rq mws rs eh s, none) := by
  unfold handleRequestT handleRequest
  rcases h1 : runHooks Evt.reqHook rq 0 s with ⟨s1, e1⟩
  cases e1 with
  | some e => exact handleErrorT_noThrow_eq eh e s1
  | none =>
    dsimp only
    rcases h2 : executeMiddleware mws s1 with ⟨s2, e2⟩
    cases e2 with
    | some e => exact handleErrorT_noThrow_eq eh e s2
    | none =>
      dsimp only
      rcases h3 : runHooks Evt.respHook rs 0 s2 with ⟨s3, e3⟩
      cases e3 with
      | some e => exact handleErrorT_noThrow_eq eh e s3
      | none => rfl

theorem runErrHooksT_char (lgb : LogB) (hooks : List EHB) : ∀ (i : Nat) (s : St),
    ∃ tr : List Evt, (runErrHooksT lgb hooks i s).1 = { s with trace := s.trace ++ tr } := by
  induction hooks with
  | nil => intro i s; exact ⟨[], by simp [runErrHooksT]⟩
  | cons b rest ih =>
    intro i s
    cases b with
    | ok =>
      obtain ⟨tr, h1⟩ := ih (i + 1) (emit s (.errHookRun i s.status))
      simp only [emit] at h1
      refine ⟨Evt.errHookRun i s.status :: tr, ?_⟩
      show (runErrHooksT lgb rest (i + 1) (emit s (.errHookRun i s.status))).1 = _
      simp only [emit]
      rw [h1]
      simp
    | throwE e =>
      cases hc : lgb.hookCatchLogThrows
      · exact ⟨[Evt.errHookRun i s.status, Evt.errHookCaught],
          by simp [runErrHooksT, hc, emit]⟩
      · exact ⟨[Evt.errHookRun i s.status], by simp [runErrHooksT, hc, emit]⟩

theorem send_endCount_le (s : St) : (send s).endCount ≤ s.endCount + 1 := by
  simp only [send]
  split_ifs <;> simp

theorem handleErrorT_endCount_le (lgb : LogB) (eh : List EHB) (e : DErr) (s : St) :
    (handleErrorT lgb eh e s).1.endCount ≤ s.endCount + 1 := by
  simp only [handleErrorT]
  cases hel : lgb.errLogThrows
  · simp only [hel, Bool.false_eq_true, if_false]
    rcases hrun : runErrHooksT lgb eh 0 (emit (emit s Evt.errPhase) Evt.logError)
      with ⟨s2, esc⟩
    obtain ⟨tr, h2⟩ := runErrHooksT_char lgb eh 0 (emit (emit s Evt.errPhase) Evt.logError)
    rw [hrun] at h2
    dsimp only at h2
    have hc2 : s2.endCount = s.endCount ∧ s2.writableEnded = s.writableEnded := by
      rw [h2]; exact ⟨rfl, rfl⟩
    cases esc with
    | some e2 =>
      dsimp only
      omega
    | none =>
      dsimp only
      by_cases hwe : (setBody (setStatus s2 (errStatusOf e))
          (some (BodyV.errObj (errMessageOf e)))).writableEnded
      · simp only [if_pos hwe]
        simp [setBody, setStatus]
        omega
      · simp only [if_neg hwe]
        have := send_endCount_le (setBody (setStatus s2 (errStatusOf e))
          (some (BodyV.errObj (errMessageOf e))))
        have hsb : (setBody (setStatus s2 (errStatusOf e))
            (some (BodyV.errObj (errMessageOf e)))).endCount = s2.endCount := by
          simp [setBody, setStatus]
        omega
  · simp only [hel, if_true]
    simp [emit]

/-- C1 counterexample.  With a logger whose transport write throws — the
repository's FilterTransport permits exactly this (the C7 bug) — a
middleware error sends the request to handleError, whose own
`ctx.log.error` call throws before anything is written: the request
completes with zero responses sent and the error escapes handleRequest,
refuting the claim that a response is sent exactly once even when the
error-handling path itself throws. -/
theorem handleRequest_zero_sends_with_throwing_transport :
    ((handleRequestT ⟨true, true, true⟩ []
        [MWB.throwE { status := none, statusCode := none, expose := false,
                      message := "boom" }]
        [] [] St.init).1.endCount = 0) ∧
    (handleRequestT ⟨true, true, true⟩ []
        [MWB.throwE { status := none, statusCode := none, expose := false,
                      message := "boom" }]
        [] [] St.init).2.isSome = true := by
  decide

/-- C1 (amended).  `res.end` is never performed twice on the raw response:
over every logger behaviour, every hook and middleware configuration, at
most one send happens.  When the logger's transport write never throws —
the write contract of spec section 4.4 — exactly one response is sent and
no error escapes handleRequest, whether all phases complete normally or
any phase throws, including error hooks throwing inside the error phase.
With a transport whose write throws (as the repository's FilterTransport
permits), the error path can end the request with zero responses. -/
theorem handleRequest_send_counts :
    (∀ (lgb : LogB) (rq : List HB) (mws : List MWB) (rs : List HB) (eh : List EHB),
        (handleRequestT lgb rq mws rs eh St.init).1.endCount ≤ 1) ∧
    (∀ (rq : List HB) (mws : List MWB) (rs : List HB) (eh : List EHB),
        (handleRequestT ⟨false, false, false⟩ rq mws rs eh St.init).1.endCount = 1 ∧
        (handleRequestT ⟨false, false, false⟩ rq mws rs eh St.init).2 = none) := by
  constructor
  · intro lgb rq mws rs eh
    unfold handleRequestT
    rcases h1 : runHooks Evt.reqHook rq 0 St.init with ⟨s1, e1⟩
    obtain ⟨tr1, hs1, -⟩ := runHooks_char Evt.reqHook rq 0 St.init
    rw [h1] at hs1
    dsimp only at hs1
    have hf1 : s1.endCount = 0 := by rw [hs1]; rfl
    cases e1 with
    | some e =>
      dsimp only
      have := handleErrorT_endCount_le lgb eh e s1
      omega
    | none =>
      dsimp only
      rcases h2 : executeMiddleware mws s1 with ⟨s2, e2⟩
      obtain ⟨tr2, i2, hs2, -⟩ := executeMiddleware_char mws s1
      rw [h2] at hs2
      dsimp only at hs2
      have hf2 : s2.endCount = 0 := by rw [hs2]; exact hf1
      cases e2 with
      | some e =>
        dsimp only
        have := handleErrorT_endCount_le lgb eh e s2
        omega
      | none =>
        dsimp only
        rcases h3 : runHooks Evt.respHook rs 0 s2 with ⟨s3, e3⟩
        obtain ⟨tr3, hs3, -⟩ := runHooks_char Evt.respHook rs 0 s2
        rw [h3] at hs3
        dsimp only at hs3
        have hf3 : s3.endCount = 0 := by rw [hs3]; exact hf2
        cases e3 with
        | some e =>
          dsimp only
          have := handleErrorT_endCount_le lgb eh e s3
          omega
        | none =>
          dsimp only
          cases ht : lgb.timingLogThrows
          · simp only [ht, Bool.false_eq_true, if_false]
            have h4 := send_endCount_le (emit s3 Evt.logInfo)
            have h5 : (emit s3 Evt.logInfo).endCount = s3.endCount := rfl
            show (send (emit s3 Evt.logInfo)).endCount ≤ 1
            omega
          · simp only [ht, if_true]
            have := handleErrorT_endCount_le lgb eh (.user logThrowErr) s3
            omega
  · intro rq mws rs eh
    rw [handleRequestT_noThrow_eq]
    exact ⟨handleRequest_endCount_one rq mws rs eh, rfl⟩

theorem go_guard (l : List MWB) (i : Nat) (s : St) (h : (i : Int) ≤ s.idx) :
    go l i s = (s, some .multipleNext) := by
  cases l with
  | nil => rw [go_nil, if_pos h]
  | cons b rest => rw [go_cons, if_pos h]

theorem go_pass (l : List MWB) (hl : ∀ b ∈ l, b = MWB.next ∨ b = MWB.stop) :
    ∀ (i : Nat) (s : St), s.idx < (i : Int) →
      ∃ s' : St, go l i s = (s', none) ∧ (i : Int) ≤ s'.idx := by
  induction l with
  | nil =>
    intro i s h
    refine ⟨{ s with idx := (i : Int) }, ?_, by simp⟩
    rw [go_nil, if_neg (not_le.mpr h)]
  | cons b rest ih =>
    intro i s h
    have hrest : ∀ b ∈ rest, b = MWB.next ∨ b = MWB.stop :=
      fun b hb => hl b (List.mem_cons_of_mem _ hb)
    rcases hl b (List.mem_cons_self b rest) with hb | hb <;> subst hb
    · rw [go_cons, if_neg (not_le.mpr h)]
      dsimp only
      obtain ⟨s', hgo, hidx⟩ := ih hrest (i + 1)
        (emit { s with idx := (i : Int) } (Evt.before i))
        (by simp [emit])
      rw [hgo]
      dsimp only
      refine ⟨emit s' (Evt.after i), rfl, ?_⟩
      simp only [emit]
      omega
    · rw [go_cons, if_neg (not_le.mpr h)]
      dsimp only
      exact ⟨emit { s with idx := (i : Int) } (Evt.before i), rfl, by simp [emit]⟩

theorem go_nextTwice (post : List MWB)
    (hpost : ∀ b ∈ post, b = MWB.next ∨ b = MWB.stop) :
    ∀ (pre : List MWB), (∀ b ∈ pre, b = MWB.next) →
    ∀ (i : Nat) (s : St), s.idx < (i : Int) →
      ∃ s' : St,
        go (pre ++ MWB.nextTwice :: post) i s = (s', some DErr.multipleNext) := by
  intro pre
  induction pre with
  | nil =>
    intro _ i s h
    rw [List.nil_append, go_cons, if_neg (not_le.mpr h)]
    dsimp only
    obtain ⟨s', hgo, hidx⟩ := go_pass post hpost (i + 1)
      (emit { s with idx := (i : Int) } (Evt.before i))
      (by simp [emit])
    rw [hgo]
    dsimp only
    exact ⟨s', go_guard post (i + 1) s' hidx⟩
  | cons b pre' ih =>
    intro hpre i s h
    have hb := hpre b (List.mem_cons_self b pre')
    subst hb
    rw [List.cons_append, go_cons, if_neg (not_le.mpr h)]
    dsimp only
    obtain ⟨s', hgo⟩ := ih (fun b hb => hpre b (List.mem_cons_of_mem _ hb)) (i + 1)
      (emit { s with idx := (i : Int) } (Evt.before i))
      (by simp [emit])
    rw [hgo]
    dsimp only
    exact ⟨s', rfl⟩

theorem countP_zero_of_all {tr : List Evt} {p : Evt → Bool}
    (h : ∀ ev ∈ tr, p ev = false) : tr.countP p = 0 := by
  rw [List.countP_eq_zero]
  intro a ha
  simp [h a ha]

theorem expectedErrHookEvts_no_errPhase (hooks : List EHB) : ∀ (i st : Nat),
    (expectedErrHookEvts hooks i st).countP isErrPhase = 0 := by
  induction hooks with
  | nil => intro i st; simp [expectedErrHookEvts]
  | cons b rest ih =>
    intro i st
    cases b <;> simp [expectedErrHookEvts, isErrPhase, ih, List.countP_cons]

/-- C5.  When a reached middleware step calls its continuation twice (all
steps before it call it exactly once, all steps after it are ordinary
non-throwing middleware), the dispatch fails with the distinguishable
duplicate-continuation error rather than silently re-running downstream
steps, and the request transitions to the error phase exactly once. -/
theorem nextTwice_fails_with_single_error_phase
    (pre post : List MWB) (rs : List HB) (eh : List EHB)
    (hpre : ∀ b ∈ pre, b = MWB.next)
    (hpost : ∀ b ∈ post, b = MWB.next ∨ b = MWB.stop) :
    (executeMiddleware (pre ++ MWB.nextTwice :: post) St.init).2
        = some DErr.multipleNext ∧
    ((handleRequest [] (pre ++ MWB.nextTwice :: post) rs eh St.init).trace.countP
        isErrPhase) = 1 := by
  have hne : (pre ++ MWB.nextTwice :: post).isEmpty = false := by
    cases pre <;> simp
  obtain ⟨s', hgo⟩ := go_nextTwice post hpost pre hpre 0 { St.init with idx := -1 }
    (by simp [St.init])
  have hEM : executeMiddleware (pre ++ MWB.nextTwice :: post) St.init
      = (s', some DErr.multipleNext) := by
    simp [executeMiddleware, hne, hgo]
  refine ⟨by rw [hEM], ?_⟩
  obtain ⟨tr, i2, hs', hev⟩ := executeMiddleware_char (pre ++ MWB.nextTwice :: post) St.init
  rw [hEM] at hs'
  dsimp only at hs'
  have hflags : s'.writableEnded = false ∧ s'.headersSent = false := by
    rw [hs']; exact ⟨rfl, rfl⟩
  have htr : s'.trace.countP isErrPhase = 0 := by
    rw [hs']
    show (St.init.trace ++ tr).countP isErrPhase = 0
    rw [List.countP_append]
    have : tr.countP isErrPhase = 0 := by
      refine countP_zero_of_all fun ev hevm => ?_
      rcases hev ev hevm with ⟨j, hj⟩ | ⟨j, hj⟩ <;> subst hj <;> rfl
    simp [St.init, this]
  unfold handleRequest
  rw [show runHooks Evt.reqHook [] 0 St.init = (St.init, none) from rfl]
  dsimp only
  rw [hEM]
  dsimp only
  rw [handleError_char eh DErr.multipleNext s' hflags.1 hflags.2]
  dsimp only
  rw [List.countP_append, htr]
  simp [List.countP_cons, List.countP_append, isErrPhase,
    expectedErrHookEvts_no_errPhase]

/-- Witness for C5 at the concrete chain [next, nextTwice, next] with one
response hook and one error hook. -/
theorem nextTwice_fails_with_single_error_phase_witness :
    (executeMiddleware [MWB.next, MWB.nextTwice, MWB.next] St.init).2
        = some DErr.multipleNext ∧
    ((handleRequest [] [MWB.next, MWB.nextTwice, MWB.next] [HB.ok] [EHB.ok]
        St.init).trace.countP isErrPhase) = 1 := by
  have h := nextTwice_fails_with_single_error_phase [MWB.next] [MWB.next]
    [HB.ok] [EHB.ok] (by decide) (by decide)
  simpa using h

/-- C6.  For the chain [A, B, C] where A and B call their continuation
once and C never calls it, the observable order is A-before, B-before,
C, B-after, A-after: the downstream legs run outside-in and the upstream
legs unwind in LIFO order, and the chain completes without error. -/
theorem onion_order_ABC :
    (executeMiddleware [MWB.next, MWB.next, MWB.stop] St.init).1.trace
        = [Evt.before 0, Evt.before 1, Evt.before 2, Evt.after 1, Evt.after 0] ∧
    (executeMiddleware [MWB.next, MWB.next, MWB.stop] St.init).2 = none := by
  decide

theorem expectedErrHookEvts_countP_throw (e : KError) (post : List EHB) :
    ∀ (pre : List EHB), (∀ b ∈ pre, b = EHB.ok) → ∀ (i st : Nat),
      ((expectedErrHookEvts (pre ++ EHB.throwE e :: post) i st).countP isErrHookRun
          = pre.length + 1) ∧
      Evt.errHookCaught ∈ expectedErrHookEvts (pre ++ EHB.throwE e :: post) i st := by
  intro pre
  induction pre with
  | nil =>
    intro _ i st
    simp [expectedErrHookEvts, isErrHookRun, List.countP_cons]
  | cons b pre' ih =>
    intro hpre i st
    have hb := hpre b (List.mem_cons_self b pre')
    subst hb
    have h := ih (fun b hb => hpre b (List.mem_cons_of_mem _ hb)) (i + 1) st
    simp only [List.cons_append, expectedErrHookEvts, List.countP_cons,
      List.length_cons, List.mem_cons, List.append_eq]
    constructor
    · rw [h.1]
      simp [isErrHookRun]
    · exact Or.inr h.2

/-- C3 counterexample.  With the error hooks [throwing, ok], the second
registered error hook never runs (exactly one hook-run event appears in
the trace, not two), refuting the claim that a throwing error hook does
not prevent later error hooks from running; the response is still sent. -/
theorem errHook_second_skipped_after_first_throws :
    (((handleError
        [EHB.throwE { status := none, statusCode := none, expose := false,
                      message := "boom" }, EHB.ok]
        (DErr.user { status := none, statusCode := none, expose := false,
                     message := "boom" })
        St.init).trace.countP isErrHookRun) = 1) ∧
    (handleError
        [EHB.throwE { status := none, statusCode := none, expose := false,
                      message := "boom" }, EHB.ok]
        (DErr.user { status := none, statusCode := none, expose := false,
                     message := "boom" })
        St.init).endCount = 1 := by
  decide

/-- C3 (amended).  The error hooks run in registration order inside one
shared guard: the hooks before the first throwing hook all run, the
throwing hook's failure is caught and logged instead of re-thrown, and
the response is still sent — but the hooks registered after the throwing
one are skipped (the hook-run count is the position of the thrower plus
one, not the full hook count). -/
theorem errHooks_first_failure_caught_response_still_sent
    (pre post : List EHB) (e : KError) (d : DErr)
    (hpre : ∀ b ∈ pre, b = EHB.ok) :
    (((handleError (pre ++ EHB.throwE e :: post) d St.init).trace.countP
        isErrHookRun) = pre.length + 1) ∧
    Evt.errHookCaught ∈ (handleError (pre ++ EHB.throwE e :: post) d St.init).trace ∧
    (handleError (pre ++ EHB.throwE e :: post) d St.init).endCount = 1 := by
  rw [handleError_char (pre ++ EHB.throwE e :: post) d St.init rfl rfl]
  dsimp only
  have h := expectedErrHookEvts_countP_throw e post pre hpre 0 404
  refine ⟨?_, ?_, rfl⟩
  · simp [List.countP_cons, List.countP_append, isErrHookRun, h.1, St.init]
  · simp only [St.init]
    simp [List.mem_append, List.mem_cons]
    exact h.2

/-- Witness for C3 (amended) with one well-behaved hook before and one
registered after the throwing hook. -/
theorem errHooks_first_failure_caught_response_still_sent_witness :
    (((handleError
        [EHB.ok,
         EHB.throwE { status := none, statusCode := none, expose := false,
                      message := "bad hook" },
         EHB.ok]
        DErr.multipleNext St.init).trace.countP isErrHookRun) = 2) ∧
    Evt.errHookCaught ∈ (handleError
        [EHB.ok,
         EHB.throwE { status := none, statusCode := none, expose := false,
                      message := "bad hook" },
         EHB.ok]
        DErr.multipleNext St.init).trace ∧
    (handleError
        [EHB.ok,
         EHB.throwE { status := none, statusCode := none, expose := false,
                      message := "bad hook" },
         EHB.ok]
        DErr.multipleNext St.init).endCount = 1 := by
  have h := errHooks_first_failure_caught_response_still_sent [EHB.ok] [EHB.ok]
    { status := none, statusCode := none, expose := false, message := "bad hook" }
    DErr.multipleNext (by decide)
  simpa using h

/-- C4 counterexample.  For an error carrying status 503 with one
registered error hook, the hook observes context status 404 (the pre-error
default) while the classified error status 503 is only applied after the
hooks, and Respond follows; this refutes the claim that error hooks
observe the already-set error status. -/
theorem errHook_observes_stale_status :
    ((handleError [EHB.ok]
        (DErr.user { status := some 503, statusCode := none, expose := true,
                     message := "boom" })
        St.init).trace
      = [Evt.errPhase, Evt.logError, Evt.errHookRun 0 404, Evt.send]) ∧
    (handleError [EHB.ok]
        (DErr.user { status := some 503, statusCode := none, expose := true,
                     message := "boom" })
        St.init).status = 503 ∧
    (404 : Nat) ≠ 503 := by
  decide

/-- C4 (amended).  handleError classifies the status and message first,
logs the error, then runs the error hooks in registration order — each
observing the status the context had before the error phase, not the
classified one — then sets the context status and body from the
classification, and then performs Respond (the send event is last). -/
theorem handleError_sets_status_after_hooks (hooks : List EHB) (d : DErr) (s : St)
    (hwe : s.writableEnded = false) (hhs : s.headersSent = false) :
    handleError hooks d s = { s with
      status := errStatusOf d,
      explicitStatus := true,
      body := some (BodyV.errObj (errMessageOf d)),
      resStatusCode := errStatusOf d,
      writableEnded := true,
      headersSent := true,
      endCount := s.endCount + 1,
      trace := s.trace ++ Evt.errPhase :: Evt.logError ::
        (expectedErrHookEvts hooks 0 s.status ++ [Evt.send]) } :=
  handleError_char hooks d s hwe hhs

/-- Witness for C4 (amended) at a concrete 503 error with one hook. -/
theorem handleError_sets_status_after_hooks_witness :
    handleError [EHB.ok]
        (DErr.user { status := some 503, statusCode := none, expose := true,
                     message := "oops" }) St.init
      = { St.init with
          status := 503,
          explicitStatus := true,
          body := some (BodyV.errObj "oops"),
          resStatusCode := 503,
          writableEnded := true,
          headersSent := true,
          endCount := 1,
          trace := [Evt.errPhase, Evt.logError, Evt.errHookRun 0 404, Evt.send] } := by
  have h := handleError_sets_status_after_hooks [EHB.ok]
    (DErr.user { status := some 503, statusCode := none, expose := true,
                 message := "oops" }) St.init rfl rfl
  simpa [St.init, expectedErrHookEvts, errStatusOf, errMessageOf, truthy] using h

/-- C2.  Every Context handed out by ContextPool.acquire — on first
construction (pool miss) as much as on reuse — has gone through reset:
its state map is empty and its identity fields (request identifier,
request-start timestamp and bound request logger) are all initialised,
so the dispatch engine's reads of startTime and log are defined.  The
hypothesis says the free list only holds identities of Contexts the pool
has constructed, which holds for every reachable pool state. -/
theorem acquire_always_resets_identity_fields
    (p : PoolSt) (app req res now counter : Nat) (nm : String)
    (hwf : ∀ id ∈ p.free, id < p.store.length) :
    ((p.acquire app req res now counter nm).2.store.getD
        (p.acquire app req res now counter nm).1 Ctx.blank)
      = { appId := app, rawReq := req, rawRes := res, state := [],
          requestId := some (toString now ++ "-" ++ toString counter),
          startTime := some now,
          log := some { loggerName := nm,
                        reqBinding := toString now ++ "-" ++ toString counter } } := by
  rcases hfree : p.free with _ | ⟨id, rest⟩
  · simp [PoolSt.acquire, hfree, List.getD_eq_getElem?_getD,
      List.getElem?_concat_length, Ctx.reset, Ctx.blank]
  · have hid : id < p.store.length :=
      hwf id (by rw [hfree]; exact List.mem_cons_self id rest)
    simp [PoolSt.acquire, hfree, List.getD_eq_getElem?_getD,
      List.getElem?_set_self, hid, Ctx.reset]

/-- Witness for C2: a pool-miss acquire on an empty pool of capacity 2. -/
theorem acquire_always_resets_identity_fields_witness :
    (((PoolSt.empty 2).acquire 1 2 3 100 7 "koax").2.store.getD
        (((PoolSt.empty 2).acquire 1 2 3 100 7 "koax").1) Ctx.blank)
      = { appId := 1, rawReq := 2, rawRes := 3, state := [],
          requestId := some "100-7", startTime := some 100,
          log := some { loggerName := "koax", reqBinding := "100-7" } } := by
  have h := acquire_always_resets_identity_fields (PoolSt.empty 2) 1 2 3 100 7 "koax"
    (by intro id hid; simp [PoolSt.empty] at hid)
  rw [h]
  rfl

theorem poolStep_bound (p : PoolSt) (op : PoolOp) :
    (p.step op).maxSize = p.maxSize ∧
    (p.free.length ≤ p.maxSize → (p.step op).free.length ≤ p.maxSize) := by
  cases op with
  | acquireOp a r e n c =>
    rcases hfree : p.free with _ | ⟨id, rest⟩
    · constructor <;> simp [PoolSt.step, PoolSt.acquire, hfree]
    · constructor
      · simp [PoolSt.step, PoolSt.acquire, hfree]
      · intro h
        simp only [List.length_cons] at h
        simp [PoolSt.step, PoolSt.acquire, hfree]
        omega
  | releaseOp id =>
    simp only [PoolSt.step, PoolSt.release]
    split_ifs with hin hlt
    · exact ⟨rfl, fun _ => by simpa using hlt⟩
    · exact ⟨rfl, fun h => h⟩
    · exact ⟨rfl, fun h => h⟩

theorem run_free_bound_aux (ops : List PoolOp) : ∀ p : PoolSt,
    p.free.length ≤ p.maxSize →
      (ops.foldl PoolSt.step p).free.length ≤ p.maxSize ∧
      (ops.foldl PoolSt.step p).maxSize = p.maxSize := by
  induction ops with
  | nil => intro p h; exact ⟨h, rfl⟩
  | cons op rest ih =>
    intro p h
    have hstep := poolStep_bound p op
    have h2 : (p.step op).free.length ≤ (p.step op).maxSize := by
      rw [hstep.1]; exact hstep.2 h
    have hrec := ih (p.step op) h2
    rw [List.foldl_cons]
    constructor
    · rw [← hstep.1]; exact hrec.1
    · rw [hrec.2, hstep.1]

/-- C9.  For every pool capacity and every interleaving of acquires and
releases — including repeated releases of the same Context with no
acquire in between — the free list never grows beyond the configured
maximum: a release that finds the pool at capacity drops the Context
instead of pushing it. -/
theorem pool_free_list_never_exceeds_max (n : Nat) (ops : List PoolOp) :
    (PoolSt.run n ops).free.length ≤ n := by
  have h := run_free_bound_aux ops (PoolSt.empty n) (by simp [PoolSt.empty])
  simpa [PoolSt.run, PoolSt.empty] using h.1

/-- C7 (code bug).  FilterTransport.write evaluates the predicate with no
try/catch around it: on a predicate that throws, write neither forwards
the entry nor swallows the exception — the exception propagates to the
caller of write (second component), violating the transport contract
that write never throws and that predicate failures fail closed. -/
theorem filterWrite_propagates_predicate_exception :
    filterWrite (fun _ => PredB.throwsB) [] { level := 50, entryMsg := "m" }
      = ([], some "predicate threw") := by
  rfl

/-- C8 counterexample.  A MultiTransport over [A, B] where the flush of A
throws synchronously: B is never flushed (its flushed flag stays false in
the returned state) and the failure propagates to the caller instead of
being caught and logged per child, refuting the claim for flush. -/
theorem multiFlush_throwing_child_stops_iteration :
    multiFlush
      [{ writeB := OpB.okB, flushB := some OpB.throwsB, closeB := none,
         received := [], flushed := false, closed := false },
       { writeB := OpB.okB, flushB := some OpB.okB, closeB := none,
         received := [], flushed := false, closed := false }]
      = ([{ writeB := OpB.okB, flushB := some OpB.throwsB, closeB := none,
            received := [], flushed := false, closed := false },
          { writeB := OpB.okB, flushB := some OpB.okB, closeB := none,
            received := [], flushed := false, closed := false }],
         some "flush threw") := by
  rfl

theorem multiWrite_foldl_char (e : EntryT) : ∀ (cs : List Child) (a : List Child) (k : Nat),
    cs.foldl (writeOne e) (a, k)
      = (a ++ cs.map (writeMark e),
         k + (cs.filter (fun c => c.writeB == OpB.throwsB)).length) := by
  intro cs
  induction cs with
  | nil => intro a k; simp
  | cons c rest ih =>
    intro a k
    cases hw : c.writeB with
    | okB =>
      simp [List.foldl_cons, writeOne, hw, writeMark, ih, List.filter_cons]
    | throwsB =>
      simp [List.foldl_cons, writeOne, hw, writeMark, ih, List.filter_cons]
      omega

theorem multiFlush_throw_char (cA : Child) (hA : cA.flushB = some OpB.throwsB) :
    ∀ (pre : List Child), (∀ d ∈ pre, d.flushB ≠ some OpB.throwsB) →
    ∀ post : List Child,
      multiFlush (pre ++ cA :: post)
        = (pre.map flushMark ++ cA :: post, some "flush threw") := by
  intro pre
  induction pre with
  | nil =>
    intro _ post
    simp [multiFlush, hA]
  | cons d pre' ih =>
    intro hpre post
    have hd := hpre d (List.mem_cons_self d pre')
    have hrec := ih (fun x hx => hpre x (List.mem_cons_of_mem _ hx)) post
    rcases hfd : d.flushB with _ | op
    · simp [multiFlush, hfd, hrec, flushMark]
    · cases op with
      | okB => simp [multiFlush, hfd, hrec, flushMark]
      | throwsB => exact absurd hfd hd

theorem multiClose_throw_char (cA : Child) (hA : cA.closeB = some OpB.throwsB) :
    ∀ (pre : List Child), (∀ d ∈ pre, d.closeB ≠ some OpB.throwsB) →
    ∀ post : List Child,
      multiClose (pre ++ cA :: post)
        = (pre.map closeMark ++ cA :: post, some "close threw") := by
  intro pre
  induction pre with
  | nil =>
    intro _ post
    simp [multiClose, hA]
  | cons d pre' ih =>
    intro hpre post
    have hd := hpre d (List.mem_cons_self d pre')
    have hrec := ih (fun x hx => hpre x (List.mem_cons_of_mem _ hx)) post
    rcases hfd : d.closeB with _ | op
    · simp [multiClose, hfd, hrec, closeMark]
    · cases op with
      | okB => simp [multiClose, hfd, hrec, closeMark]
      | throwsB => exact absurd hfd hd

/-- C8 (amended).  MultiTransport.write delivers the entry to every child
whose write returns, even when earlier children throw, catching and
logging each failing child individually and never throwing to the
caller; but flush and close only run the children in order up to the
first synchronously throwing child — the remaining children are left
untouched and the failure propagates to the caller. -/
theorem multi_write_isolated_flush_close_abort :
    (∀ (cs : List Child) (e : EntryT),
        multiWrite cs e
          = (cs.map (writeMark e),
             (cs.filter (fun c => c.writeB == OpB.throwsB)).length)) ∧
    (∀ (pre : List Child) (cA : Child) (post : List Child),
        (∀ d ∈ pre, d.flushB ≠ some OpB.throwsB) →
        cA.flushB = some OpB.throwsB →
        multiFlush (pre ++ cA :: post)
          = (pre.map flushMark ++ cA :: post, some "flush threw")) ∧
    (∀ (pre : List Child) (cA : Child) (post : List Child),
        (∀ d ∈ pre, d.closeB ≠ some OpB.throwsB) →
        cA.closeB = some OpB.throwsB →
        multiClose (pre ++ cA :: post)
          = (pre.map closeMark ++ cA :: post, some "close threw")) := by
  refine ⟨fun cs e => ?_,
    fun pre cA post h1 h2 => multiFlush_throw_char cA h2 pre h1 post,
    fun pre cA post h1 h2 => multiClose_throw_char cA h2 pre h1 post⟩
  have h := multiWrite_foldl_char e cs [] 0
  simpa [multiWrite] using h

/-- Witness for C8 (amended): multi(A, B) where the write of A throws
still delivers the entry to B; a flush over [okChild, throwingChild]
marks the first child flushed and propagates the second child's error. -/
theorem multi_write_isolated_flush_close_abort_witness :
    (multiWrite
        [{ writeB := OpB.throwsB, flushB := none, closeB := none,
           received := [], flushed := false, closed := false },
         { writeB := OpB.okB, flushB := none, closeB := none,
           received := [], flushed := false, closed := false }]
        { level := 30, entryMsg := "hi" }
      = ([{ writeB := OpB.throwsB, flushB := none, closeB := none,
            received := [], flushed := false, closed := false },
          { writeB := OpB.okB, flushB := none, closeB := none,
            received := [{ level := 30, entryMsg := "hi" }], flushed := false,
            closed := false }], 1)) ∧
    (multiClose
        [{ writeB := OpB.okB, flushB := none, closeB := some OpB.okB,
           received := [], flushed := false, closed := false },
         { writeB := OpB.okB, flushB := none, closeB := some OpB.throwsB,
           received := [], flushed := false, closed := false }]
      = ([{ writeB := OpB.okB, flushB := none, closeB := some OpB.okB,
            received := [], flushed := false, closed := true },
          { writeB := OpB.okB, flushB := none, closeB := some OpB.throwsB,
            received := [], flushed := false, closed := false }],
         some "close threw")) := by
  constructor
  · have h := multi_write_isolated_flush_close_abort.1
      [{ writeB := OpB.throwsB, flushB := none, closeB := none,
         received := [], flushed := false, closed := false },
       { writeB := OpB.okB, flushB := none, closeB := none,
         received := [], flushed := false, closed := false }]
      { level := 30, entryMsg := "hi" }
    rw [h]
    rfl
  · have h := multi_write_isolated_flush_close_abort.2.2
      [{ writeB := OpB.okB, flushB := none, closeB := some OpB.okB,
         received := [], flushed := false, closed := false }]
      { writeB := OpB.okB, flushB := none, closeB := some OpB.throwsB,
        received := [], flushed := false, closed := false }
      [] (by decide) rfl
    simpa [closeMark] using h

/-- C10.  A freshly constructed or reset KoaXResponse has status 404 with
the explicit-status flag clear; assigning a non-null body while no status
has been explicitly set switches the status to 200; assigning any body
after an explicit status assignment, or assigning a null body, leaves the
status unchanged. -/
theorem response_status_semantics :
    St.init.status = 404 ∧
    St.init.explicitStatus = false ∧
    (∀ s : St, (resetResp s).status = 404) ∧
    (∀ s : St, (resetResp s).explicitStatus = false) ∧
    (∀ (s : St) (v : BodyV), s.explicitStatus = false →
        (setBody s (some v)).status = 200) ∧
    (∀ (s : St) (v : Option BodyV), s.explicitStatus = true →
        (setBody s v).status = s.status) ∧
    (∀ s : St, (setBody s none).status = s.status) := by
  refine ⟨rfl, rfl, fun s => rfl, fun s => rfl, ?_, ?_, ?_⟩
  · intro s v h
    simp [setBody, setStatus, h]
  · intro s v h
    simp [setBody, h]
  · intro s
    simp [setBody]

/-- Witness for C10: the auto-200 fires on a fresh response receiving a
body, an explicit 301 survives a later body assignment, and a null body
leaves the fresh 404 in place. -/
theorem response_status_semantics_witness :
    (setBody St.init (some (BodyV.raw "hello"))).status = 200 ∧
    (setBody (setStatus St.init 301) (some (BodyV.raw "hello"))).status = 301 ∧
    (setBody St.init none).status = 404 := by
  refine ⟨response_status_semantics.2.2.2.2.1 St.init (BodyV.raw "hello") rfl, ?_, ?_⟩
  · have h := response_status_semantics.2.2.2.2.2.1 (setStatus St.init 301)
      (some (BodyV.raw "hello")) rfl
    simpa [setStatus] using h
  · have h := response_status_semantics.2.2.2.2.2.2 St.init
    simpa [St.init] using h

end KoaX
